import Mathlib

/-!
Verification of the serverless-resources-env plugin (src/index.js) against its
natural-language specification.  The development shallowly embeds the plugin's
core pipeline: resource-map construction, per-function selection and merging,
paginated resource fetching, directory-safe property-file writing, and the
stage/region/stack-name resolvers.
-/

set_option autoImplicit false

namespace SRE

/-! ## JavaScript object model

JavaScript objects with string keys iterate in insertion order; assigning to an
existing key updates the value in place (keeping the key's position) while a
new key is appended at the end.  We model such an object as an ordered
association list. -/

/-- A JavaScript object with string keys and string values, in insertion
iteration order. -/
abbrev JSObj := List (String × String)

/-- Property read: the value at the first entry with the given key
(JS objects never hold duplicate keys, so first = only). -/
def objGet : JSObj → String → Option String
  | [], _ => none
  | p :: rest, k => if p.1 == k then some p.2 else objGet rest k

/-- Whether the object has an own property with the given key. -/
def objHasKey (o : JSObj) (k : String) : Bool :=
  o.any (fun p => p.1 == k)

/-- Property assignment `o[k] = v`: update in place when the key exists,
append otherwise. -/
def objSet (o : JSObj) (k v : String) : JSObj :=
  if objHasKey o k then o.map (fun p => if p.1 == k then (k, v) else p)
  else o ++ [(k, v)]

/-- `_.keys`: the keys in iteration order. -/
def objKeys (o : JSObj) : List String := o.map Prod.fst

/-- The value of the LAST binding for a key, used to describe folding
`objSet` over an entry list that may bind a key repeatedly. -/
def objGetLast : JSObj → String → Option String
  | [], _ => none
  | p :: rest, k =>
    match objGetLast rest k with
    | some v => some v
    | none => if p.1 == k then some p.2 else none

/-- Well-formedness of a JavaScript object value: no duplicate keys. -/
def objWF (o : JSObj) : Prop := (objKeys o).Nodup

/-- JavaScript truthiness of an optional string (absent and the empty string
are falsy). -/
def jsTruthy : Option String → Bool
  | none => false
  | some s => !(s == "")

/-- Overlaying one optional value over another: the later (first argument)
layer wins when present. -/
def overlay (a b : Option String) : Option String :=
  match a with
  | some v => some v
  | none => b

/-- `_.pick(obj, paths)`: the sub-object over the listed keys, in path-list
order, silently skipping absent keys. -/
def pick (obj : JSObj) (paths : List String) : JSObj :=
  paths.foldl
    (fun acc k =>
      match objGet obj k with
      | some v => objSet acc k v
      | none => acc)
    []

/-- `_.difference(a, b)`: the elements of `a` not contained in `b`,
preserving the order of `a`. -/
def difference (a b : List String) : List String :=
  a.filter (fun x => !(b.contains x))

/-- `_.extend({}, o₁, …, oₙ)` (`Object.assign` semantics): copy the entries of
each source, in order, into a fresh object; later sources win on collision. -/
def extendObjs (sources : List JSObj) : JSObj :=
  sources.foldl (fun acc o => o.foldl (fun a p => objSet a p.1 p.2) acc) []

/-- `_.join(list)` with the default separator. -/
def joinComma (l : List String) : String := String.intercalate "," l

/-! ## Basic lemmas about the object model -/

theorem objGet_nil (k : String) : objGet [] k = none := rfl

theorem objGet_eq_none_iff_not_hasKey (o : JSObj) (k : String) :
    objGet o k = none ↔ objHasKey o k = false := by
  induction o with
  | nil => simp [objGet, objHasKey]
  | cons p rest ih =>
    simp only [objGet, objHasKey, List.any_cons] at *
    cases hp : (p.1 == k) with
    | true => simp [hp]
    | false => simp [hp, ih]

theorem objHasKey_iff_mem_keys (o : JSObj) (k : String) :
    objHasKey o k = true ↔ k ∈ objKeys o := by
  induction o with
  | nil => simp [objHasKey, objKeys]
  | cons p rest ih =>
    simp only [objHasKey, List.any_cons, objKeys, List.map_cons, List.mem_cons] at *
    cases hp : (p.1 == k) with
    | true => simp [hp, (beq_iff_eq.mp hp).symm]
    | false =>
      have hne : ¬ k = p.1 := fun h => by simp [h] at hp
      simp [hp, ih, hne]

theorem objGet_map_set_of_hasKey (o : JSObj) (k v : String)
    (h : objHasKey o k = true) :
    objGet (o.map (fun p => if p.1 == k then (k, v) else p)) k = some v := by
  induction o with
  | nil => simp [objHasKey] at h
  | cons p rest ih =>
    cases hp : (p.1 == k) with
    | true => simp [objGet, hp]
    | false =>
      have hrest : objHasKey rest k = true := by
        simp only [objHasKey, List.any_cons, hp, Bool.false_or] at h
        exact h
      simp only [List.map_cons, hp, Bool.false_eq_true, if_false, objGet]
      exact ih hrest

theorem objGet_map_set_ne (o : JSObj) (k v q : String) (hq : q ≠ k) :
    objGet (o.map (fun p => if p.1 == k then (k, v) else p)) q = objGet o q := by
  induction o with
  | nil => simp
  | cons p rest ih =>
    cases hp : (p.1 == k) with
    | true =>
      have hpk : p.1 = k := beq_iff_eq.mp hp
      have hkq : (k == q) = false := beq_eq_false_iff_ne.mpr (fun h => hq h.symm)
      have hpq : (p.1 == q) = false := by rw [hpk]; exact hkq
      simp only [List.map_cons, hp, if_true, objGet, hkq, hpq,
        Bool.false_eq_true, if_false]
      exact ih
    | false =>
      cases hpq : (p.1 == q) with
      | true =>
        simp only [List.map_cons, hp, Bool.false_eq_true, if_false, objGet, hpq, if_true]
      | false =>
        simp only [List.map_cons, hp, Bool.false_eq_true, if_false, objGet, hpq]
        exact ih

theorem objGet_append_of_not_hasKey (o tail : JSObj) (k : String)
    (h : objHasKey o k = false) :
    objGet (o ++ tail) k = objGet tail k := by
  induction o with
  | nil => simp
  | cons p rest ih =>
    simp only [objHasKey, List.any_cons, Bool.or_eq_false_iff] at h
    have hrest : objHasKey rest k = false := h.2
    simp [objGet, h.1, ih hrest]

theorem objGet_append_single_ne (o : JSObj) (k v q : String) (hq : q ≠ k) :
    objGet (o ++ [(k, v)]) q = objGet o q := by
  induction o with
  | nil =>
    have hkq : (k == q) = false := beq_eq_false_iff_ne.mpr (fun h => hq h.symm)
    simp [objGet, hkq]
  | cons p rest ih =>
    cases hpq : (p.1 == q) with
    | true => simp [objGet, hpq]
    | false => simp [objGet, hpq, ih]

theorem objGet_objSet_self (o : JSObj) (k v : String) :
    objGet (objSet o k v) k = some v := by
  unfold objSet
  cases h : objHasKey o k with
  | true => simpa [h] using objGet_map_set_of_hasKey o k v h
  | false =>
    simp only [h, Bool.false_eq_true, if_false]
    rw [objGet_append_of_not_hasKey o [(k, v)] k h]
    simp [objGet]

theorem objGet_objSet_ne (o : JSObj) (k v q : String) (hq : q ≠ k) :
    objGet (objSet o k v) q = objGet o q := by
  unfold objSet
  cases h : objHasKey o k with
  | true => simpa [h] using objGet_map_set_ne o k v q hq
  | false =>
    simp only [h, Bool.false_eq_true, if_false]
    exact objGet_append_single_ne o k v q hq

theorem objGet_objSet (o : JSObj) (k v q : String) :
    objGet (objSet o k v) q = if q = k then some v else objGet o q := by
  by_cases h : q = k
  · subst h; simp [objGet_objSet_self]
  · simp [h, objGet_objSet_ne o k v q h]

theorem str_beq_comm (a b : String) : (a == b) = (b == a) := by
  cases hab : (a == b) with
  | true =>
    have h := beq_iff_eq.mp hab
    subst h
    exact (beq_self_eq_true a).symm
  | false =>
    have hne : ¬ a = b := fun h => by simp [h] at hab
    exact (beq_eq_false_iff_ne.mpr (fun h => hne h.symm)).symm

theorem contains_keys_eq_hasKey (o : JSObj) (k : String) :
    (objKeys o).contains k = objHasKey o k := by
  induction o with
  | nil => rfl
  | cons p rest ih =>
    simp only [objKeys, List.map_cons, List.contains_cons, objHasKey, List.any_cons]
    rw [str_beq_comm k p.1]
    cases hp : (p.1 == k) with
    | true => rfl
    | false =>
      simp only [Bool.false_or]
      exact ih

theorem objKeys_map_set (o : JSObj) (k v : String) :
    objKeys (o.map (fun p => if p.1 == k then (k, v) else p)) = objKeys o := by
  induction o with
  | nil => rfl
  | cons p rest ih =>
    simp only [objKeys, List.map_cons] at *
    cases hp : (p.1 == k) with
    | true =>
      have hpk : p.1 = k := beq_iff_eq.mp hp
      simp only [hp, if_true]
      rw [ih, hpk]
    | false =>
      simp only [hp, Bool.false_eq_true, if_false]
      rw [ih]

theorem objWF_nil : objWF [] := List.nodup_nil

theorem objWF_objSet (o : JSObj) (k v : String) (h : objWF o) :
    objWF (objSet o k v) := by
  unfold objSet
  cases hk : objHasKey o k with
  | true =>
    rw [if_pos rfl]
    unfold objWF
    rw [objKeys_map_set]
    exact h
  | false =>
    simp only [hk, Bool.false_eq_true, if_false]
    have hnotmem : k ∉ objKeys o := fun hm => by
      rw [(objHasKey_iff_mem_keys o k).mpr hm] at hk
      cases hk
    have hkeys : objKeys (o ++ [(k, v)]) = objKeys o ++ [k] := by
      simp [objKeys]
    unfold objWF at *
    rw [hkeys, List.nodup_append]
    refine ⟨h, List.nodup_singleton k, ?_⟩
    intro a ha hb
    have : a = k := by simpa using hb
    exact hnotmem (this ▸ ha)

/-! ## Overlay and last-binding lemmas -/

theorem overlay_none_left (b : Option String) : overlay none b = b := rfl

theorem overlay_some_left (v : String) (b : Option String) :
    overlay (some v) b = some v := rfl

theorem overlay_none_right (a : Option String) : overlay a none = a := by
  cases a <;> rfl

theorem overlay_assoc (a b c : Option String) :
    overlay (overlay a b) c = overlay a (overlay b c) := by
  cases a <;> rfl

theorem objGetLast_eq_none_of_not_hasKey (o : JSObj) (k : String)
    (h : objHasKey o k = false) : objGetLast o k = none := by
  induction o with
  | nil => rfl
  | cons p rest ih =>
    simp only [objHasKey, List.any_cons, Bool.or_eq_false_iff] at h
    have hrest : objHasKey rest k = false := h.2
    simp only [objGetLast, ih hrest, h.1, Bool.false_eq_true, if_false]

theorem objGetLast_eq_objGet_of_WF (o : JSObj) (k : String) (h : objWF o) :
    objGetLast o k = objGet o k := by
  induction o with
  | nil => rfl
  | cons p rest ih =>
    simp only [objWF, objKeys, List.map_cons, List.nodup_cons] at h
    have h2 : objWF rest := h.2
    cases hp : (p.1 == k) with
    | true =>
      have hpk : p.1 = k := beq_iff_eq.mp hp
      have hnot : objHasKey rest k = false := by
        cases hh : objHasKey rest k with
        | false => rfl
        | true =>
          have hmem := (objHasKey_iff_mem_keys rest k).mp hh
          exact absurd (hpk ▸ hmem) h.1
      simp only [objGetLast, objGetLast_eq_none_of_not_hasKey rest k hnot,
        objGet, hp, if_true]
    | false =>
      simp only [objGetLast, ih h2, objGet, hp, Bool.false_eq_true, if_false]
      cases objGet rest k <;> rfl

theorem objGet_foldl_set (o : JSObj) (acc : JSObj) (k : String) :
    objGet (o.foldl (fun a p => objSet a p.1 p.2) acc) k
      = overlay (objGetLast o k) (objGet acc k) := by
  induction o generalizing acc with
  | nil => rfl
  | cons p rest ih =>
    simp only [List.foldl_cons, objGetLast]
    rw [ih (objSet acc p.1 p.2)]
    cases hg : objGetLast rest k with
    | some v => simp [overlay]
    | none =>
      simp only [overlay_none_left]
      rw [objGet_objSet]
      cases hp : (p.1 == k) with
      | true =>
        have hkp : k = p.1 := (beq_iff_eq.mp hp).symm
        simp [hkp, overlay]
      | false =>
        have hkp : ¬ k = p.1 := fun hh => by simp [hh] at hp
        simp [hkp, overlay]

theorem objGet_extendObjs_three (a b c : JSObj) (k : String) :
    objGet (extendObjs [a, b, c]) k
      = overlay (objGetLast c k) (overlay (objGetLast b k) (objGetLast a k)) := by
  unfold extendObjs
  simp only [List.foldl_cons, List.foldl_nil]
  rw [objGet_foldl_set c _ k, objGet_foldl_set b _ k, objGet_foldl_set a _ k]
  rw [objGet_nil, overlay_none_right]

/-! ## `pick` and `difference` characterizations -/

theorem objGet_pick_aux (obj : JSObj) (paths : List String) (acc : JSObj) (k : String) :
    objGet (paths.foldl
      (fun acc k =>
        match objGet obj k with
        | some v => objSet acc k v
        | none => acc) acc) k
      = if k ∈ paths ∧ (objGet obj k).isSome then objGet obj k else objGet acc k := by
  induction paths generalizing acc with
  | nil => simp
  | cons p rest ih =>
    simp only [List.foldl_cons]
    cases hg : objGet obj p with
    | none =>
      rw [ih]
      by_cases hkp : k = p
      · subst hkp
        simp [hg, List.mem_cons]
      · simp [List.mem_cons, hkp]
    | some v =>
      rw [ih]
      by_cases hkp : k = p
      · subst hkp
        by_cases hr : k ∈ rest
        · simp [hg, hr, List.mem_cons]
        · simp [hg, hr, List.mem_cons, objGet_objSet_self]
      · simp [List.mem_cons, hkp, objGet_objSet_ne acc p v k hkp]

theorem objGet_pick (obj : JSObj) (paths : List String) (k : String) :
    objGet (pick obj paths) k = if k ∈ paths then objGet obj k else none := by
  unfold pick
  rw [objGet_pick_aux]
  by_cases hm : k ∈ paths
  · cases hg : objGet obj k with
    | some v => simp [hm, hg]
    | none => simp [hm, hg, objGet_nil]
  · simp [hm, objGet_nil]

theorem objWF_pick (obj : JSObj) (paths : List String) : objWF (pick obj paths) := by
  unfold pick
  have aux : ∀ (ps : List String) (acc : JSObj), objWF acc →
      objWF (ps.foldl
        (fun acc k =>
          match objGet obj k with
          | some v => objSet acc k v
          | none => acc) acc) := by
    intro ps
    induction ps with
    | nil => intro acc h; exact h
    | cons p rest ih =>
      intro acc h
      simp only [List.foldl_cons]
      apply ih
      cases hg : objGet obj p with
      | none => simpa [hg] using h
      | some v => simpa [hg] using objWF_objSet acc p v h
  exact aux paths [] objWF_nil

theorem mem_difference_iff (a b : List String) (x : String) :
    x ∈ difference a b ↔ x ∈ a ∧ b.contains x = false := by
  unfold difference
  rw [List.mem_filter]
  constructor
  · rintro ⟨h1, h2⟩
    exact ⟨h1, by simpa using h2⟩
  · rintro ⟨h1, h2⟩
    exact ⟨h1, by simpa using h2⟩

/-! ## Stack resources and the resource mapper

`afterDeploy` reduces the fetched `StackResources` list into an object keyed
by `"CF_" + LogicalResourceId`, valued by `PhysicalResourceId`. -/

/-- One resource record of a "list stack resources" response. -/
structure StackResource where
  LogicalResourceId : String
  PhysicalResourceId : String
deriving DecidableEq

/-- The `_.reduce` in `afterDeploy` building the resource map. -/
def mapResources (stackResources : List StackResource) : JSObj :=
  stackResources.foldl
    (fun all item =>
      objSet all ("CF_" ++ item.LogicalResourceId) item.PhysicalResourceId)
    []

theorem string_append_left_cancel (p a b : String) (h : p ++ a = p ++ b) :
    a = b := by
  apply String.ext
  have hd := congrArg String.data h
  rw [String.data_append, String.data_append] at hd
  exact List.append_cancel_left hd

theorem cf_beq (a l : String) :
    (("CF_" ++ a) == ("CF_" ++ l)) = (a == l) := by
  cases h : (a == l) with
  | true =>
    have := beq_iff_eq.mp h
    subst this
    exact beq_self_eq_true _
  | false =>
    have hne : ¬ a = l := fun hh => by simp [hh] at h
    exact beq_eq_false_iff_ne.mpr
      (fun hh => hne (string_append_left_cancel "CF_" a l hh))

theorem foldl_lastWrite_init (rs : List StackResource) (P : StackResource → Bool)
    (g : StackResource → String) (s : Option String) :
    rs.foldl (fun r e => if P e then some (g e) else r) s
      = overlay (rs.foldl (fun r e => if P e then some (g e) else r) none) s := by
  induction rs generalizing s with
  | nil => simp [overlay_none_left]
  | cons e rest ih =>
    simp only [List.foldl_cons]
    by_cases hP : P e = true
    · rw [if_pos hP, if_pos hP]
      rw [ih (some (g e))]
      rw [overlay_assoc, overlay_some_left]
    · rw [if_neg hP, if_neg hP]
      exact ih s

theorem objGet_mapResources_aux (rs : List StackResource) (acc : JSObj) (k : String) :
    objGet (rs.foldl
      (fun all item =>
        objSet all ("CF_" ++ item.LogicalResourceId) item.PhysicalResourceId) acc) k
      = overlay
          (rs.foldl
            (fun r e =>
              if ("CF_" ++ e.LogicalResourceId) == k then some e.PhysicalResourceId
              else r) none)
          (objGet acc k) := by
  induction rs generalizing acc with
  | nil => simp [overlay_none_left]
  | cons e rest ih =>
    simp only [List.foldl_cons]
    rw [ih (objSet acc ("CF_" ++ e.LogicalResourceId) e.PhysicalResourceId)]
    rw [foldl_lastWrite_init rest
      (fun x => ("CF_" ++ x.LogicalResourceId) == k) StackResource.PhysicalResourceId
      (if (("CF_" ++ e.LogicalResourceId) == k) then some e.PhysicalResourceId else none)]
    rw [overlay_assoc]
    congr 1
    rw [objGet_objSet]
    by_cases hp : (("CF_" ++ e.LogicalResourceId) == k) = true
    · have hk : k = "CF_" ++ e.LogicalResourceId := (beq_iff_eq.mp hp).symm
      rw [if_pos hp, if_pos hk, overlay_some_left]
    · have hk : ¬ k = "CF_" ++ e.LogicalResourceId :=
        fun hh => hp (beq_iff_eq.mpr hh.symm)
      rw [if_neg hp, if_neg hk, overlay_none_left]

theorem objGet_mapResources (rs : List StackResource) (k : String) :
    objGet (mapResources rs) k
      = rs.foldl
          (fun r e =>
            if ("CF_" ++ e.LogicalResourceId) == k then some e.PhysicalResourceId
            else r) none := by
  unfold mapResources
  rw [objGet_mapResources_aux, objGet_nil, overlay_none_right]

theorem objWF_mapResources (rs : List StackResource) : objWF (mapResources rs) := by
  unfold mapResources
  have aux : ∀ (l : List StackResource) (acc : JSObj), objWF acc →
      objWF (l.foldl
        (fun all item =>
          objSet all ("CF_" ++ item.LogicalResourceId) item.PhysicalResourceId) acc) := by
    intro l
    induction l with
    | nil => intro acc h; exact h
    | cons e rest ih =>
      intro acc h
      simp only [List.foldl_cons]
      exact ih _ (objWF_objSet _ _ _ h)
  exact aux rs [] objWF_nil

theorem isSome_foldl_lastWrite (rs : List StackResource) (P : StackResource → Bool)
    (g : StackResource → String) (s : Option String) (hs : s.isSome = true) :
    (rs.foldl (fun r e => if P e then some (g e) else r) s).isSome = true := by
  rw [foldl_lastWrite_init]
  cases h : rs.foldl (fun r e => if P e then some (g e) else r) none with
  | some v => rfl
  | none => simpa [overlay_none_left] using hs

theorem isSome_foldl_lastWrite_of_mem (rs : List StackResource)
    (P : StackResource → Bool) (g : StackResource → String)
    (e : StackResource) (hP : P e = true) :
    ∀ (s : Option String), e ∈ rs →
      (rs.foldl (fun r x => if P x then some (g x) else r) s).isSome = true := by
  induction rs with
  | nil =>
    intro s he
    cases he
  | cons x rest ih =>
    intro s he
    simp only [List.foldl_cons]
    rcases List.mem_cons.mp he with rfl | hmem
    · rw [if_pos hP]
      exact isSome_foldl_lastWrite rest P g (some (g e)) rfl
    · exact ih _ hmem

/-! ## Paginated resource fetch

`fetchCFResourcesPages` repeatedly calls `listStackResources`, passing the
previous response's `NextToken`, until a response carries no token, and
concatenates the `StackResourceSummaries` of all pages.  We model the remote
service by the sequence of responses it will return to successive requests
(each either an error or a page), and record the trace of issued requests. -/

/-- One page of a `listStackResources` response. -/
structure ResourcePage where
  StackResourceSummaries : List StackResource
  NextToken : Option String
deriving DecidableEq

/-- The parameters of one `listStackResources` call. -/
structure CFRequest where
  StackName : String
  NextToken : Option String
deriving DecidableEq

/-- The recursive page loop of `fetchCFResourcesPages`, with the remote
service modelled by the list of responses it returns to successive requests.
The result is the list of issued requests together with either the rejection
error of the first failed request or the accumulated resource list. -/
def fetchCFResourcesPages (stackName : String) (nextToken : Option String)
    (resourceSummaries : List StackResource)
    (responses : List (Except String ResourcePage)) :
    List CFRequest × Except String (List StackResource) :=
  match responses with
  | [] => ([⟨stackName, nextToken⟩], Except.error "no response")
  | resp :: rest =>
    match resp with
    | Except.error e => ([⟨stackName, nextToken⟩], Except.error e)
    | Except.ok page =>
      match page.NextToken with
      | none =>
        ([⟨stackName, nextToken⟩],
          Except.ok (resourceSummaries ++ page.StackResourceSummaries))
      | some tok =>
        let next := fetchCFResourcesPages stackName (some tok)
          (resourceSummaries ++ page.StackResourceSummaries) rest
        (⟨stackName, nextToken⟩ :: next.1, next.2)

/-- `fetchCFResources` starts the page loop with a null token and an empty
accumulator. -/
def fetchCFResources (stackName : String)
    (responses : List (Except String ResourcePage)) :
    List CFRequest × Except String (List StackResource) :=
  fetchCFResourcesPages stackName none [] responses

theorem fetchCFResourcesPages_ok (stackName : String) (ps : List ResourcePage)
    (plast : ResourcePage) (hs : ∀ p ∈ ps, (p.NextToken).isSome = true)
    (hl : plast.NextToken = none) :
    ∀ (t0 : Option String) (acc : List StackResource),
      fetchCFResourcesPages stackName t0 acc ((ps ++ [plast]).map Except.ok)
        = (⟨stackName, t0⟩ :: ps.map (fun p => ⟨stackName, p.NextToken⟩),
           Except.ok (acc ++ ((ps ++ [plast]).map ResourcePage.StackResourceSummaries).flatten)) := by
  induction ps with
  | nil =>
    intro t0 acc
    simp only [List.nil_append, List.map_cons, List.map_nil]
    simp [fetchCFResourcesPages, hl]
  | cons p rest ih =>
    intro t0 acc
    have hp : (p.NextToken).isSome = true := hs p (List.mem_cons_self p rest)
    rcases Option.isSome_iff_exists.mp hp with ⟨tok, htok⟩
    have hrest : ∀ q ∈ rest, (q.NextToken).isSome = true :=
      fun q hq => hs q (List.mem_cons_of_mem p hq)
    simp only [List.cons_append, List.map_cons]
    simp only [fetchCFResourcesPages, htok]
    rw [ih hrest (some tok) (acc ++ p.StackResourceSummaries)]
    simp [List.append_assoc]

theorem fetchCFResourcesPages_error (stackName : String) (ps : List ResourcePage)
    (e : String) (rest : List (Except String ResourcePage))
    (hs : ∀ p ∈ ps, (p.NextToken).isSome = true) :
    ∀ (t0 : Option String) (acc : List StackResource),
      fetchCFResourcesPages stackName t0 acc
          (ps.map Except.ok ++ Except.error e :: rest)
        = (⟨stackName, t0⟩ :: ps.map (fun p => ⟨stackName, p.NextToken⟩),
           Except.error e) := by
  induction ps with
  | nil =>
    intro t0 acc
    simp only [List.map_nil, List.nil_append]
    simp [fetchCFResourcesPages]
  | cons p prest ih =>
    intro t0 acc
    have hp : (p.NextToken).isSome = true := hs p (List.mem_cons_self p prest)
    rcases Option.isSome_iff_exists.mp hp with ⟨tok, htok⟩
    have hrest : ∀ q ∈ prest, (q.NextToken).isSome = true :=
      fun q hq => hs q (List.mem_cons_of_mem p hq)
    simp only [List.map_cons, List.cons_append]
    simp only [fetchCFResourcesPages, htok]
    rw [ih hrest (some tok) (acc ++ p.StackResourceSummaries)]

/-! ## Property-file serialization and the local file writer -/

/-- The `_.reduce` in `createCFFile` building the property-file content:
one `key=value` line, newline-terminated, per entry in iteration order. -/
def serializeResources (resources : JSObj) : String :=
  resources.foldl (fun properties p => properties ++ p.1 ++ "=" ++ p.2 ++ "\n") ""

/-- One `key=value` line of the property file. -/
def propLine (p : String × String) : String := p.1 ++ "=" ++ p.2 ++ "\n"

/-- Concatenation of a list of strings, in order. -/
def strConcat : List String → String
  | [] => ""
  | s :: rest => s ++ strConcat rest

theorem serializeResources_foldl (o : JSObj) :
    ∀ (s : String),
      o.foldl (fun properties p => properties ++ p.1 ++ "=" ++ p.2 ++ "\n") s
        = s ++ strConcat (o.map propLine) := by
  induction o with
  | nil =>
    intro s
    rw [List.foldl_nil, List.map_nil]
    exact (String.append_empty s).symm
  | cons p rest ih =>
    intro s
    rw [List.foldl_cons, ih (s ++ p.1 ++ "=" ++ p.2 ++ "\n"), List.map_cons]
    simp [strConcat, propLine, String.append_assoc]

theorem serializeResources_eq_concat (o : JSObj) :
    serializeResources o = strConcat (o.map propLine) := by
  unfold serializeResources
  rw [serializeResources_foldl o ""]
  rw [String.empty_append]

/-- The filesystem state visible to `createCFFile`: whether a path exists and
whether the node at a path is a directory. -/
structure FileSystem where
  existsSync : String → Bool
  isDirectory : String → Bool

/-- One filesystem side effect issued by `createCFFile`, in program order. -/
inductive FSOp where
  | mkdirSync (path : String) (mode : Nat)
  | writeFile (path : String) (data : String)
deriving DecidableEq

/-- The effect of a successful `fs.mkdirSync(path, mode)`: the path now
exists and is a directory. -/
def mkdirEffect (fs : FileSystem) (path : String) : FileSystem where
  existsSync := fun q => q == path || fs.existsSync q
  isDirectory := fun q => if q == path then true else fs.isDirectory q

/-- `createCFFile` minus the naming (the directory path and file name are
passed in precomputed): create the directory when absent, throw when the path
is not a directory, else write the serialized resources.  Returns the issued
filesystem operations and either the thrown error message or success. -/
def createCFFile (fs : FileSystem) (path fileName : String) (resources : JSObj) :
    List FSOp × Except String Unit :=
  let step1 : FileSystem × List FSOp :=
    if !(fs.existsSync path) then (mkdirEffect fs path, [FSOp.mkdirSync path 0o700])
    else (fs, [])
  if !(step1.1.isDirectory path) then
    (step1.2, Except.error ("Expected " ++ path ++ " to be a directory"))
  else
    (step1.2 ++ [FSOp.writeFile (path ++ "/" ++ fileName) (serializeResources resources)],
      Except.ok ())

/-! ## Configuration context and the resolvers

`serverless.config`, `serverless.service`, the command-line `options` object
and the per-function configuration, restricted to the fields the plugin
reads. -/

/-- Command-line options (`this.options`). -/
structure Options where
  stage : Option String
  region : Option String
deriving DecidableEq

/-- `functions[name].custom`. -/
structure FunctionCustom where
  envResources : Option (List String)
  resourceOutputFile : Option String
deriving DecidableEq

/-- One entry of `serverless.service.functions`. -/
structure FunctionSpec where
  custom : Option FunctionCustom
  environment : Option JSObj
deriving DecidableEq

/-- `serverless.service.custom`. -/
structure ServiceCustom where
  resourceOutputDir : Option String
deriving DecidableEq

/-- The slice of the `serverless` context the plugin reads. -/
structure Ctx where
  servicePath : String
  serviceName : String
  configStage : Option String
  configRegion : Option String
  providerStage : Option String
  providerRegion : Option String
  providerEnvironment : Option JSObj
  serviceCustom : Option ServiceCustom
  functions : List (String × FunctionSpec)
  options : Option Options
deriving DecidableEq

/-- `getStage`: option, then `config.stage`, then `provider.stage`,
else `"dev"`; each test is JavaScript truthiness. -/
def getStage (ctx : Ctx) : String :=
  let optStage := ctx.options.bind Options.stage
  if jsTruthy optStage then optStage.getD ""
  else if jsTruthy ctx.configStage then ctx.configStage.getD ""
  else if jsTruthy ctx.providerStage then ctx.providerStage.getD ""
  else "dev"

/-- `getRegion`: option, then `config.region`, then `provider.region`,
else `"us-east-1"`. -/
def getRegion (ctx : Ctx) : String :=
  let optRegion := ctx.options.bind Options.region
  if jsTruthy optRegion then optRegion.getD ""
  else if jsTruthy ctx.configRegion then ctx.configRegion.getD ""
  else if jsTruthy ctx.providerRegion then ctx.providerRegion.getD ""
  else "us-east-1"

/-- `getStackName`: the service name and the stage, hyphen-joined. -/
def getStackName (ctx : Ctx) : String :=
  ctx.serviceName ++ "-" ++ getStage ctx

/-- `getEnvDirectory`: the `resource-output-dir` service custom when truthy,
else `.serverless-resources-env`, under the service path. -/
def getEnvDirectory (ctx : Ctx) : String :=
  let customDirectory := ctx.serviceCustom.bind ServiceCustom.resourceOutputDir
  let directory := if jsTruthy customDirectory then customDirectory.getD ""
    else ".serverless-resources-env"
  ctx.servicePath ++ "/" ++ directory

/-- Looking up `serverless.service.functions[functionName]`. -/
def lookupFn (ctx : Ctx) (functionName : String) : Option FunctionSpec :=
  (ctx.functions.find? (fun fp => fp.1 == functionName)).map Prod.snd

/-- The body of `getEnvFileName` once the function spec is at hand: the
`resource-output-file` function custom when truthy, else
`.<region>_<stage>_<functionName>`. -/
def envFileNameFor (ctx : Ctx) (functionName : String) (spec : FunctionSpec) : String :=
  let customName := spec.custom.bind FunctionCustom.resourceOutputFile
  if jsTruthy customName then customName.getD ""
  else "." ++ getRegion ctx ++ "_" ++ getStage ctx ++ "_" ++ functionName

/-- `getEnvFileName(functionName)`; `none` models the JavaScript crash on an
unknown function name. -/
def getEnvFileName (ctx : Ctx) (functionName : String) : Option String :=
  (lookupFn ctx functionName).map (envFileNameFor ctx functionName)

/-! ## The per-function deploy pipeline (`afterDeploy`) -/

/-- `_.map(functions[fn].custom && functions[fn].custom['env-resources'],
resource => 'CF_' + resource)`: the requested keys, `CF_`-prefixed; an absent
list maps to the empty list. -/
def resourceListOf (spec : FunctionSpec) : List String :=
  match spec.custom.bind FunctionCustom.envResources with
  | none => []
  | some rs => rs.map (fun resource => "CF_" ++ resource)

/-- Everything `afterDeploy` computes for one declared function: the remote
function name and environment passed to `updateFunctionEnv`, the matched
resources and unmet keys, the emitted warning lines, and the local file
location and content handed to `createCFFile`. -/
structure DeployAction where
  awsFunctionName : String
  publishedEnv : JSObj
  matchedResources : JSObj
  notFound : List String
  warnings : List String
  fileDirectory : String
  fileName : String
  fileData : String
deriving DecidableEq

/-- The body of the `_.map` over function names in `afterDeploy`, for one
function. -/
def processFunction (ctx : Ctx) (resources : JSObj) (functionName : String)
    (spec : FunctionSpec) : DeployAction :=
  let awsFunctionName := getStackName ctx ++ "-" ++ functionName
  let resourceList := resourceListOf spec
  let thisFunctionsResources := pick resources resourceList
  let notFoundList := difference resourceList (objKeys thisFunctionsResources)
  let thisFunctionEnv := extendObjs
    [thisFunctionsResources, ctx.providerEnvironment.getD [], spec.environment.getD []]
  { awsFunctionName := awsFunctionName
    publishedEnv := thisFunctionEnv
    matchedResources := thisFunctionsResources
    notFound := notFoundList
    warnings :=
      if notFoundList.length > 0 then
        ["[serverless-resources-env] WARNING: Could not find cloud formation resources for "
          ++ functionName ++ ".Could not find: " ++ joinComma notFoundList]
      else []
    fileDirectory := getEnvDirectory ctx
    fileName := envFileNameFor ctx functionName spec
    fileData := serializeResources thisFunctionsResources }

/-- The deploy cycle after a successful fetch: build the resource map, then
process every declared function. -/
def afterDeploy (ctx : Ctx) (stackResources : List StackResource) :
    List DeployAction :=
  let resources := mapResources stackResources
  ctx.functions.map (fun fp => processFunction ctx resources fp.1 fp.2)

/-! ## Spec-side precedence definition (for the stage/region refinement) -/

/-- The first truthy value of a precedence list, as the spec words it. -/
def firstTruthy : List (Option String) → Option String
  | [] => none
  | o :: rest => if jsTruthy o then o else firstTruthy rest

/-- The spec's stage precedence: explicit option, cached config value,
provider default, hard-coded fallback `"dev"`. -/
def specStagePrecedence (ctx : Ctx) : String :=
  (firstTruthy [ctx.options.bind Options.stage, ctx.configStage, ctx.providerStage]).getD "dev"

/-- The spec's region precedence: explicit option, cached config value,
provider default, hard-coded fallback `"us-east-1"`. -/
def specRegionPrecedence (ctx : Ctx) : String :=
  (firstTruthy [ctx.options.bind Options.region, ctx.configRegion, ctx.providerRegion]).getD "us-east-1"

/-! ## Claim theorems -/

theorem getD_eq_of_truthy (o : Option String) (h : jsTruthy o = true) (d1 d2 : String) :
    o.getD d1 = o.getD d2 := by
  cases o with
  | none => simp [jsTruthy] at h
  | some s => rfl

theorem getStage_eq_spec (ctx : Ctx) : getStage ctx = specStagePrecedence ctx := by
  simp only [getStage, specStagePrecedence, firstTruthy]
  by_cases h1 : jsTruthy (ctx.options.bind Options.stage) = true
  · rw [if_pos h1, if_pos h1]
    exact getD_eq_of_truthy _ h1 "" "dev"
  · rw [if_neg h1, if_neg h1]
    by_cases h2 : jsTruthy ctx.configStage = true
    · rw [if_pos h2, if_pos h2]
      exact getD_eq_of_truthy _ h2 "" "dev"
    · rw [if_neg h2, if_neg h2]
      by_cases h3 : jsTruthy ctx.providerStage = true
      · rw [if_pos h3, if_pos h3]
        exact getD_eq_of_truthy _ h3 "" "dev"
      · rw [if_neg h3, if_neg h3]
        rfl

theorem getRegion_eq_spec (ctx : Ctx) : getRegion ctx = specRegionPrecedence ctx := by
  simp only [getRegion, specRegionPrecedence, firstTruthy]
  by_cases h1 : jsTruthy (ctx.options.bind Options.region) = true
  · rw [if_pos h1, if_pos h1]
    exact getD_eq_of_truthy _ h1 "" "us-east-1"
  · rw [if_neg h1, if_neg h1]
    by_cases h2 : jsTruthy ctx.configRegion = true
    · rw [if_pos h2, if_pos h2]
      exact getD_eq_of_truthy _ h2 "" "us-east-1"
    · rw [if_neg h2, if_neg h2]
      by_cases h3 : jsTruthy ctx.providerRegion = true
      · rw [if_pos h3, if_pos h3]
        exact getD_eq_of_truthy _ h3 "" "us-east-1"
      · rw [if_neg h3, if_neg h3]
        rfl

/-- C6: `getStage` and `getRegion` are total (they are plain functions into
`String`) and follow the precedence explicit run-time option, then cached
configuration value, then provider default setting, then the hard-coded
fallback (`"dev"` for stage, `"us-east-1"` for region); and for every
context, `getStackName` equals the service name, a hyphen, and the stage so
resolved. -/
theorem stage_region_stackName_resolution (ctx : Ctx) :
    getStage ctx = specStagePrecedence ctx
    ∧ getRegion ctx = specRegionPrecedence ctx
    ∧ getStackName ctx = ctx.serviceName ++ "-" ++ specStagePrecedence ctx := by
  refine ⟨getStage_eq_spec ctx, getRegion_eq_spec ctx, ?_⟩
  unfold getStackName
  rw [getStage_eq_spec ctx]

/-- C7: the local env file name is the per-function `resource-output-file`
override when present (a non-empty string), otherwise
`.<region>_<stage>_<functionName>`; the directory is the service-level
`resource-output-dir` override when present, otherwise
`.serverless-resources-env`, under the service root path. -/
theorem envFile_naming (ctx : Ctx) (functionName : String) (spec : FunctionSpec)
    (h : lookupFn ctx functionName = some spec) :
    (∀ s, spec.custom.bind FunctionCustom.resourceOutputFile = some s → s ≠ "" →
        getEnvFileName ctx functionName = some s)
    ∧ (jsTruthy (spec.custom.bind FunctionCustom.resourceOutputFile) = false →
        getEnvFileName ctx functionName
          = some ("." ++ getRegion ctx ++ "_" ++ getStage ctx ++ "_" ++ functionName))
    ∧ (∀ d, ctx.serviceCustom.bind ServiceCustom.resourceOutputDir = some d → d ≠ "" →
        getEnvDirectory ctx = ctx.servicePath ++ "/" ++ d)
    ∧ (jsTruthy (ctx.serviceCustom.bind ServiceCustom.resourceOutputDir) = false →
        getEnvDirectory ctx = ctx.servicePath ++ "/" ++ ".serverless-resources-env") := by
  refine ⟨?_, ?_, ?_, ?_⟩
  · intro s hso hsne
    have ht : jsTruthy (some s) = true := by
      simp [jsTruthy, hsne]
    simp only [getEnvFileName, h, Option.map_some', envFileNameFor, hso]
    rw [if_pos ht]
    rfl
  · intro hfalse
    simp only [getEnvFileName, h, Option.map_some', envFileNameFor]
    rw [if_neg (by simp [hfalse])]
  · intro d hdo hdne
    have ht : jsTruthy (some d) = true := by
      simp [jsTruthy, hdne]
    simp only [getEnvDirectory, hdo]
    rw [if_pos ht]
    rfl
  · intro hfalse
    simp only [getEnvDirectory]
    rw [if_neg (by simp [hfalse])]

/-- Witness for C7: with no options and no overrides, function `hello` maps
to `.us-east-1_dev_hello` inside `.serverless-resources-env` under the
service path. -/
theorem envFile_naming_witness :
    (getEnvFileName
      { servicePath := ".", serviceName := "svc", configStage := none,
        configRegion := none, providerStage := none, providerRegion := none,
        providerEnvironment := none, serviceCustom := none,
        functions := [("hello", { custom := none, environment := none })],
        options := none } "hello" = some ".us-east-1_dev_hello")
    ∧ (getEnvDirectory
      { servicePath := ".", serviceName := "svc", configStage := none,
        configRegion := none, providerStage := none, providerRegion := none,
        providerEnvironment := none, serviceCustom := none,
        functions := [("hello", { custom := none, environment := none })],
        options := none } = "." ++ "/" ++ ".serverless-resources-env") := by
  constructor
  · have h := (envFile_naming
      { servicePath := ".", serviceName := "svc", configStage := none,
        configRegion := none, providerStage := none, providerRegion := none,
        providerEnvironment := none, serviceCustom := none,
        functions := [("hello", { custom := none, environment := none })],
        options := none } "hello" { custom := none, environment := none } (by decide)).2.1 rfl
    rw [h]
    rfl
  · exact (envFile_naming
      { servicePath := ".", serviceName := "svc", configStage := none,
        configRegion := none, providerStage := none, providerRegion := none,
        providerEnvironment := none, serviceCustom := none,
        functions := [("hello", { custom := none, environment := none })],
        options := none } "hello" { custom := none, environment := none } (by decide)).2.2.2 rfl

/-- C10: for every declared function, the remote function name passed to the
environment publish call is the stack name, a hyphen, and the function name,
i.e. `serviceName + "-" + stage + "-" + functionName`. -/
theorem awsFunctionName_derivation (ctx : Ctx) (stackResources : List StackResource) :
    (afterDeploy ctx stackResources).map DeployAction.awsFunctionName
      = ctx.functions.map
          (fun fp => ctx.serviceName ++ "-" ++ getStage ctx ++ "-" ++ fp.1) := by
  unfold afterDeploy
  rw [List.map_map]
  rfl

/-- C4: when the output directory path does not exist, `createCFFile` creates
it as a directory with mode `0o700` and then writes the file; when the path
exists but is not a directory, it throws synchronously and issues no write
operation at all. -/
theorem createCFFile_directory_safety (fs : FileSystem) (path fileName : String)
    (resources : JSObj) :
    (fs.existsSync path = false →
      createCFFile fs path fileName resources
        = ([FSOp.mkdirSync path 0o700,
            FSOp.writeFile (path ++ "/" ++ fileName) (serializeResources resources)],
           Except.ok ()))
    ∧ (fs.existsSync path = true → fs.isDirectory path = false →
      createCFFile fs path fileName resources
        = ([], Except.error ("Expected " ++ path ++ " to be a directory"))) := by
  constructor
  · intro h
    unfold createCFFile
    simp [h, mkdirEffect]
  · intro h1 h2
    unfold createCFFile
    simp [h1, h2]

/-- Witness for C4: a filesystem with nothing at the path leads to
mkdir-then-write; a filesystem with a non-directory at the path leads to the
error with no operations. -/
theorem createCFFile_directory_safety_witness :
    (createCFFile ⟨fun _ => false, fun _ => false⟩ "dir" "file" [("CF_a", "1")]
      = ([FSOp.mkdirSync "dir" 448,
          FSOp.writeFile ("dir" ++ "/" ++ "file") (serializeResources [("CF_a", "1")])],
         Except.ok ()))
    ∧ (createCFFile ⟨fun _ => true, fun _ => false⟩ "dir" "file" [("CF_a", "1")]
      = ([], Except.error ("Expected " ++ "dir" ++ " to be a directory"))) :=
  ⟨(createCFFile_directory_safety ⟨fun _ => false, fun _ => false⟩ "dir" "file"
      [("CF_a", "1")]).1 rfl,
   (createCFFile_directory_safety ⟨fun _ => true, fun _ => false⟩ "dir" "file"
      [("CF_a", "1")]).2 rfl rfl⟩

/-- C2: the published per-function environment is the matched resources
overlaid by the provider-level environment overlaid by the function-level
static environment: at every key, the function-level value wins, then the
provider-level value, then the matched resource value. -/
theorem processFunction_env_layering (ctx : Ctx) (resources : JSObj)
    (functionName : String) (spec : FunctionSpec)
    (hp : objWF (ctx.providerEnvironment.getD []))
    (hs : objWF (spec.environment.getD [])) (k : String) :
    objGet (processFunction ctx resources functionName spec).publishedEnv k
      = overlay (objGet (spec.environment.getD []) k)
          (overlay (objGet (ctx.providerEnvironment.getD []) k)
            (objGet (processFunction ctx resources functionName spec).matchedResources k)) := by
  simp only [processFunction]
  rw [objGet_extendObjs_three]
  rw [objGetLast_eq_objGet_of_WF _ k (objWF_pick resources (resourceListOf spec))]
  rw [objGetLast_eq_objGet_of_WF _ k hp]
  rw [objGetLast_eq_objGet_of_WF _ k hs]

/-- The function spec of the spec's override-precedence example: requests
resource `a`, static environment `CF_b=override`. -/
def specLayer : FunctionSpec :=
  { custom := some { envResources := some ["a"], resourceOutputFile := none },
    environment := some [("CF_b", "override")] }

/-- The context of the spec's override-precedence example: provider-level
defaults `CF_a=default, CF_b=2`. -/
def ctxLayer : Ctx :=
  { servicePath := ".", serviceName := "svc", configStage := none,
    configRegion := none, providerStage := none, providerRegion := none,
    providerEnvironment := some [("CF_a", "default"), ("CF_b", "2")],
    serviceCustom := none,
    functions := [("f1", specLayer)],
    options := none }

/-- Witness for C2: the spec's example — matched `CF_a=1`, provider defaults
`CF_a=default, CF_b=2`, static `CF_b=override` resolve to
`CF_a=default, CF_b=override`. -/
theorem processFunction_env_layering_witness :
    objWF ((ctxLayer.providerEnvironment).getD [])
    ∧ objWF ((specLayer.environment).getD [])
    ∧ (objGet (processFunction ctxLayer [("CF_a", "1")] "f1" specLayer).publishedEnv "CF_a"
        = overlay (objGet ((specLayer.environment).getD []) "CF_a")
            (overlay (objGet ((ctxLayer.providerEnvironment).getD []) "CF_a")
              (objGet (processFunction ctxLayer [("CF_a", "1")] "f1" specLayer).matchedResources "CF_a")))
    ∧ (objGet (processFunction ctxLayer [("CF_a", "1")] "f1" specLayer).publishedEnv "CF_b"
        = overlay (objGet ((specLayer.environment).getD []) "CF_b")
            (overlay (objGet ((ctxLayer.providerEnvironment).getD []) "CF_b")
              (objGet (processFunction ctxLayer [("CF_a", "1")] "f1" specLayer).matchedResources "CF_b")))
    ∧ (processFunction ctxLayer [("CF_a", "1")] "f1" specLayer).publishedEnv
        = [("CF_a", "default"), ("CF_b", "override")] :=
  ⟨by unfold objWF; decide, by unfold objWF; decide,
   processFunction_env_layering ctxLayer [("CF_a", "1")] "f1" specLayer
     (by unfold objWF; decide) (by unfold objWF; decide) "CF_a",
   processFunction_env_layering ctxLayer [("CF_a", "1")] "f1" specLayer
     (by unfold objWF; decide) (by unfold objWF; decide) "CF_b",
   by decide⟩

/-- C5: a requested resource key absent from the resource map lands
(`CF_`-prefixed) in the function's not-found list, is absent from the matched
environment (no placeholder is inserted), triggers the warning log line
naming the function and the missing keys, and does not abort the cycle:
every declared function still yields its deploy action. -/
theorem unmet_resource_request (ctx : Ctx) (stackResources : List StackResource)
    (functionName : String) (spec : FunctionSpec)
    (hmem : (functionName, spec) ∈ ctx.functions)
    (r : String) (rs : List String)
    (hrs : spec.custom.bind FunctionCustom.envResources = some rs)
    (hr : r ∈ rs)
    (habs : objGet (mapResources stackResources) ("CF_" ++ r) = none) :
    processFunction ctx (mapResources stackResources) functionName spec
        ∈ afterDeploy ctx stackResources
    ∧ ("CF_" ++ r)
        ∈ (processFunction ctx (mapResources stackResources) functionName spec).notFound
    ∧ objGet (processFunction ctx (mapResources stackResources) functionName spec).matchedResources
        ("CF_" ++ r) = none
    ∧ (processFunction ctx (mapResources stackResources) functionName spec).warnings
        = ["[serverless-resources-env] WARNING: Could not find cloud formation resources for "
            ++ functionName ++ ".Could not find: "
            ++ joinComma (processFunction ctx (mapResources stackResources) functionName spec).notFound]
    ∧ (afterDeploy ctx stackResources).length = ctx.functions.length := by
  have hreq : ("CF_" ++ r) ∈ resourceListOf spec := by
    unfold resourceListOf
    rw [hrs]
    exact List.mem_map_of_mem (fun resource => "CF_" ++ resource) hr
  have hmatched :
      objGet (pick (mapResources stackResources) (resourceListOf spec)) ("CF_" ++ r) = none := by
    rw [objGet_pick]
    by_cases hin : ("CF_" ++ r) ∈ resourceListOf spec
    · rw [if_pos hin]
      exact habs
    · rw [if_neg hin]
  have hnotfound :
      ("CF_" ++ r) ∈ difference (resourceListOf spec)
        (objKeys (pick (mapResources stackResources) (resourceListOf spec))) := by
    rw [mem_difference_iff]
    refine ⟨hreq, ?_⟩
    rw [contains_keys_eq_hasKey]
    exact (objGet_eq_none_iff_not_hasKey _ _).mp hmatched
  refine ⟨?_, ?_, ?_, ?_, ?_⟩
  · exact List.mem_map_of_mem
      (fun fp => processFunction ctx (mapResources stackResources) fp.1 fp.2) hmem
  · exact hnotfound
  · exact hmatched
  · simp only [processFunction]
    rw [if_pos ?hpos]
    case hpos =>
      exact List.length_pos.mpr (List.ne_nil_of_mem hnotfound)
  · unfold afterDeploy
    exact List.length_map ctx.functions _

/-- The function spec of the C5 witness: requests resource `x`. -/
def specUnmet : FunctionSpec :=
  { custom := some { envResources := some ["x"], resourceOutputFile := none },
    environment := none }

/-- The context of the C5 witness: one function requesting resource `x`,
which the (empty) stack does not provide. -/
def ctxUnmet : Ctx :=
  { servicePath := ".", serviceName := "svc", configStage := none,
    configRegion := none, providerStage := none, providerRegion := none,
    providerEnvironment := none, serviceCustom := none,
    functions := [("f1", specUnmet)],
    options := none }

/-- Witness for C5 at a concrete context: requesting `x` against an empty
stack puts `CF_x` in the not-found list, omits it from the matched
environment, and emits the warning. -/
theorem unmet_resource_request_witness :
    ("f1", specUnmet) ∈ ctxUnmet.functions
    ∧ objGet (mapResources []) ("CF_" ++ "x") = none
    ∧ (processFunction ctxUnmet (mapResources []) "f1" specUnmet
          ∈ afterDeploy ctxUnmet []
        ∧ ("CF_" ++ "x") ∈ (processFunction ctxUnmet (mapResources []) "f1" specUnmet).notFound
        ∧ objGet (processFunction ctxUnmet (mapResources []) "f1" specUnmet).matchedResources
            ("CF_" ++ "x") = none
        ∧ (processFunction ctxUnmet (mapResources []) "f1" specUnmet).warnings
            = ["[serverless-resources-env] WARNING: Could not find cloud formation resources for "
                ++ "f1" ++ ".Could not find: "
                ++ joinComma (processFunction ctxUnmet (mapResources []) "f1" specUnmet).notFound]
        ∧ (afterDeploy ctxUnmet []).length = ctxUnmet.functions.length) :=
  ⟨by decide, by decide,
   unmet_resource_request ctxUnmet [] "f1" specUnmet (by decide) "x" ["x"]
     (by decide) (by decide) (by decide)⟩

/-- C9: a resource list with two or more entries of the same logical id
yields exactly one `CF_`-prefixed key for that id in the resource map, whose
value is the physical id of the last such entry in iteration order (the
left fold that keeps the most recent match). -/
theorem mapResources_duplicate_last_write (rs : List StackResource) (l : String)
    (h : 2 ≤ (rs.filter (fun e => e.LogicalResourceId == l)).length) :
    (objKeys (mapResources rs)).count ("CF_" ++ l) = 1
    ∧ objGet (mapResources rs) ("CF_" ++ l)
        = rs.foldl
            (fun acc e =>
              if e.LogicalResourceId == l then some e.PhysicalResourceId else acc)
            none := by
  have hget : objGet (mapResources rs) ("CF_" ++ l)
      = rs.foldl
          (fun acc e =>
            if e.LogicalResourceId == l then some e.PhysicalResourceId else acc)
          none := by
    rw [objGet_mapResources]
    simp only [cf_beq]
  have hWF := objWF_mapResources rs
  have hne : (rs.filter (fun e => e.LogicalResourceId == l)) ≠ [] := by
    intro hnil
    rw [hnil] at h
    simp at h
  obtain ⟨e, hef⟩ := List.exists_mem_of_ne_nil _ hne
  have hmem := List.mem_filter.mp hef
  have hsome : (objGet (mapResources rs) ("CF_" ++ l)).isSome = true := by
    rw [hget]
    exact isSome_foldl_lastWrite_of_mem rs (fun x => x.LogicalResourceId == l)
      StackResource.PhysicalResourceId e hmem.2 none hmem.1
  have hhk : objHasKey (mapResources rs) ("CF_" ++ l) = true := by
    cases hh : objHasKey (mapResources rs) ("CF_" ++ l) with
    | true => rfl
    | false =>
      rw [(objGet_eq_none_iff_not_hasKey _ _).mpr hh] at hsome
      simp at hsome
  exact ⟨List.count_eq_one_of_mem hWF ((objHasKey_iff_mem_keys _ _).mp hhk), hget⟩

/-- Witness for C9: entries `(a, 1)` and `(a, 2)` produce a single `CF_a`
key bound to `2`, the physical id of the later entry. -/
theorem mapResources_duplicate_last_write_witness :
    2 ≤ (([{ LogicalResourceId := "a", PhysicalResourceId := "1" },
           { LogicalResourceId := "a", PhysicalResourceId := "2" }] : List StackResource).filter
            (fun e => e.LogicalResourceId == "a")).length
    ∧ ((objKeys (mapResources
          [{ LogicalResourceId := "a", PhysicalResourceId := "1" },
           { LogicalResourceId := "a", PhysicalResourceId := "2" }])).count ("CF_" ++ "a") = 1
      ∧ objGet (mapResources
          [{ LogicalResourceId := "a", PhysicalResourceId := "1" },
           { LogicalResourceId := "a", PhysicalResourceId := "2" }]) ("CF_" ++ "a")
          = ([{ LogicalResourceId := "a", PhysicalResourceId := "1" },
              { LogicalResourceId := "a", PhysicalResourceId := "2" }] : List StackResource).foldl
              (fun acc e =>
                if e.LogicalResourceId == "a" then some e.PhysicalResourceId else acc)
              none)
    ∧ objGet (mapResources
        [{ LogicalResourceId := "a", PhysicalResourceId := "1" },
         { LogicalResourceId := "a", PhysicalResourceId := "2" }]) "CF_a" = some "2" :=
  ⟨by decide,
   mapResources_duplicate_last_write
     [{ LogicalResourceId := "a", PhysicalResourceId := "1" },
      { LogicalResourceId := "a", PhysicalResourceId := "2" }] "a" (by decide),
   by decide⟩

/-- C3: for a response sequence of N pages, every page but the last carrying
a continuation token and the last carrying none, the fetch issues exactly N
requests — the first with a null token, each later one with the previous
response's token — and resolves with the concatenation of all pages' resource
lists in page order. -/
theorem fetch_pagination (stackName : String) (ps : List ResourcePage)
    (plast : ResourcePage) (hs : ∀ p ∈ ps, (p.NextToken).isSome = true)
    (hl : plast.NextToken = none) :
    fetchCFResources stackName ((ps ++ [plast]).map Except.ok)
      = (⟨stackName, none⟩ :: ps.map (fun p => ⟨stackName, p.NextToken⟩),
         Except.ok (((ps ++ [plast]).map ResourcePage.StackResourceSummaries).flatten))
    ∧ (fetchCFResources stackName ((ps ++ [plast]).map Except.ok)).1.length
        = (ps ++ [plast]).length := by
  have h := fetchCFResourcesPages_ok stackName ps plast hs hl none []
  have h1 : fetchCFResources stackName ((ps ++ [plast]).map Except.ok)
      = (⟨stackName, none⟩ :: ps.map (fun p => ⟨stackName, p.NextToken⟩),
         Except.ok (((ps ++ [plast]).map ResourcePage.StackResourceSummaries).flatten)) := by
    unfold fetchCFResources
    rw [h, List.nil_append]
  refine ⟨h1, ?_⟩
  rw [h1]
  simp

/-- The first response page of the pagination witnesses: one resource and a
continuation token. -/
def pageA : ResourcePage :=
  { StackResourceSummaries := [{ LogicalResourceId := "a", PhysicalResourceId := "1" }],
    NextToken := some "t" }

/-- The final response page of the pagination witness: one resource, no
continuation token. -/
def pageB : ResourcePage :=
  { StackResourceSummaries := [{ LogicalResourceId := "b", PhysicalResourceId := "2" }],
    NextToken := none }

/-- Witness for C3: two pages, the first carrying token `t`, fetch issues the
two requests `(stack, null)` and `(stack, t)` and returns both pages'
resources in order. -/
theorem fetch_pagination_witness :
    (∀ p ∈ [pageA], (p.NextToken).isSome = true)
    ∧ pageB.NextToken = none
    ∧ fetchCFResources "stack" (([pageA] ++ [pageB]).map Except.ok)
        = (⟨"stack", none⟩ :: [pageA].map (fun p => ⟨"stack", p.NextToken⟩),
           Except.ok ((([pageA] ++ [pageB]).map ResourcePage.StackResourceSummaries).flatten)) :=
  ⟨by decide, rfl, (fetch_pagination "stack" [pageA] pageB (by decide) rfl).1⟩

/-- C8: when some page request errors after a run of token-carrying pages,
the whole fetch rejects with exactly that error: the result carries no
resource list at all, so nothing reaches the mapper or the per-function
selection. -/
theorem fetch_error_rejects (stackName : String) (ps : List ResourcePage)
    (e : String) (rest : List (Except String ResourcePage))
    (hs : ∀ p ∈ ps, (p.NextToken).isSome = true) :
    fetchCFResources stackName (ps.map Except.ok ++ Except.error e :: rest)
      = (⟨stackName, none⟩ :: ps.map (fun p => ⟨stackName, p.NextToken⟩),
         Except.error e) := by
  unfold fetchCFResources
  exact fetchCFResourcesPages_error stackName ps e rest hs none []

/-- Witness for C8: one good page with a token, then a failing request; the
fetch rejects with that error. -/
theorem fetch_error_rejects_witness :
    (∀ p ∈ [pageA], (p.NextToken).isSome = true)
    ∧ fetchCFResources "stack" ([pageA].map Except.ok ++ Except.error "boom" :: [])
        = (⟨"stack", none⟩ :: [pageA].map (fun p => ⟨"stack", p.NextToken⟩),
           Except.error "boom") :=
  ⟨by decide, fetch_error_rejects "stack" [pageA] "boom" [] (by decide)⟩

/-- The function spec of the C1 context: requests resource `a` and has the
static environment entry `B=x`. -/
def specFile : FunctionSpec :=
  { custom := some { envResources := some ["a"], resourceOutputFile := none },
    environment := some [("B", "x")] }

/-- The context of the C1 counterexample: one function with a static
environment entry on top of its matched resource. -/
def ctxFile : Ctx :=
  { servicePath := ".", serviceName := "svc", configStage := none,
    configRegion := none, providerStage := none, providerRegion := none,
    providerEnvironment := none, serviceCustom := none,
    functions := [("f1", specFile)],
    options := none }

/-- C1 as stated is false: the property file written for a function is NOT
the serialization of the function's resolved (merged) environment — here the
file content omits the static environment entry `B=x` that the published
environment carries. -/
theorem file_content_counterexample :
    (afterDeploy ctxFile [{ LogicalResourceId := "a", PhysicalResourceId := "1" }]).map
        DeployAction.fileData
      ≠ (afterDeploy ctxFile [{ LogicalResourceId := "a", PhysicalResourceId := "1" }]).map
          (fun a => serializeResources a.publishedEnv) := by
  decide

/-- C1 amended: for every function processed in a deploy cycle, the content
of the local property file is exactly the concatenation, in iteration order,
of one `KEY=VALUE\n` line per entry of that function's MATCHED resources (the
resource-map entries selected by its requested keys) — with no blank lines,
header, or trailing comment; provider defaults and the function's static
environment are not part of the file. -/
theorem file_content_matched_resources (ctx : Ctx) (stackResources : List StackResource)
    (a : DeployAction) (ha : a ∈ afterDeploy ctx stackResources) :
    a.fileData = strConcat (a.matchedResources.map propLine) := by
  unfold afterDeploy at ha
  rcases List.mem_map.mp ha with ⟨fp, hfp, hfa⟩
  subst hfa
  exact serializeResources_eq_concat _

/-- Witness for C1 (amended): in the counterexample context the written file
content is exactly the one line `CF_a=1\n` of the matched resources. -/
theorem file_content_matched_resources_witness :
    (processFunction ctxFile
        (mapResources [{ LogicalResourceId := "a", PhysicalResourceId := "1" }]) "f1" specFile
      ∈ afterDeploy ctxFile [{ LogicalResourceId := "a", PhysicalResourceId := "1" }])
    ∧ (processFunction ctxFile
        (mapResources [{ LogicalResourceId := "a", PhysicalResourceId := "1" }]) "f1" specFile).fileData
        = strConcat ((processFunction ctxFile
            (mapResources [{ LogicalResourceId := "a", PhysicalResourceId := "1" }]) "f1"
            specFile).matchedResources.map propLine)
    ∧ (processFunction ctxFile
        (mapResources [{ LogicalResourceId := "a", PhysicalResourceId := "1" }]) "f1"
        specFile).fileData = "CF_a=1\n" :=
  ⟨by decide,
   file_content_matched_resources ctxFile
     [{ LogicalResourceId := "a", PhysicalResourceId := "1" }] _ (by decide),
   by decide⟩

end SRE
